import Mathlib

/-!
Verification development for the battlelayer connection core.

The definitions below are a shallow embedding of the packet codec
(src/conn/packet.rs), the framed socket broken-state discipline
(src/conn/socket.rs), the respondable channel (src/conn/respondable.rs)
and the connection process (src/conn/connection.rs).  Bytes are modelled
as Nat values (a real wire byte is < 256; hypotheses state this where a
proof needs it), machine u32 arithmetic is Nat arithmetic with explicit
truncation where the source can wrap, buffers are lists of bytes, and
fallible Rust functions return Except values.
-/

instance {ε α : Type _} [DecidableEq ε] [DecidableEq α] : DecidableEq (Except ε α) := fun a b =>
  match a, b with
  | .error e1, .error e2 =>
    if h : e1 = e2 then isTrue (by subst h; rfl)
    else isFalse (fun hc => h (Except.error.inj hc))
  | .error _, .ok _ => isFalse (fun hc => Except.noConfusion hc)
  | .ok _, .error _ => isFalse (fun hc => Except.noConfusion hc)
  | .ok a1, .ok a2 =>
    if h : a1 = a2 then isTrue (by subst h; rfl)
    else isFalse (fun hc => h (Except.ok.inj hc))

/-! ## Wire-level constants (src/conn/packet.rs lines 6-13) -/

def packetMaxSize : Nat := 16384

def packetMaxWords : Nat := 256

def packetHeaderSize : Nat := 12

def packetWordMinSize : Nat := 5

def packetWordMaxSize : Nat := packetMaxSize - (packetHeaderSize + packetWordMinSize)

def packetSeqClientMask : Nat := 0x80000000

def packetSeqResponMask : Nat := 0x40000000

def packetSeqHeaderMask : Nat := packetSeqClientMask ||| packetSeqResponMask

def u32Max : Nat := 4294967295

/-! ## Little-endian u32 helpers.

The source reads and writes u32 fields through the bytes crate
(get_u32_le / put_u32_le).  readU32le reads the first four bytes of a
buffer, u32leBytes is the four-byte little-endian image of a value;
the per-byte mod 256 makes the u32 truncation of the source explicit. -/

def readU32le : List Nat → Nat
  | a :: b :: c :: d :: _ => a + 256 * b + 65536 * c + 16777216 * d
  | [a, b, c] => a + 256 * b + 65536 * c
  | [a, b] => a + 256 * b
  | [a] => a
  | [] => 0

def u32leBytes (n : Nat) : List Nat :=
  [n % 256, n / 256 % 256, n / 65536 % 256, n / 16777216 % 256]

/-! ## Errors, kinds, origins (src/conn/packet.rs lines 154-176) -/

inductive PacketError where
  | malformed : PacketError
  | invalidSize : Nat → PacketError
  | invalidWordChar : Nat → PacketError
  | invalidSequenceNumber : PacketError
deriving DecidableEq

inductive PacketKind where
  | request : PacketKind
  | response : PacketKind
deriving DecidableEq

inductive PacketOrigin where
  | server : PacketOrigin
  | client : PacketOrigin
deriving DecidableEq

/-! ## PacketSequence (src/conn/packet.rs lines 180-235) -/

structure PacketSequence where
  raw : Nat
deriving DecidableEq

def PacketSequence.fromRaw (raw : Nat) : PacketSequence := ⟨raw⟩

def PacketSequence.toRaw (s : PacketSequence) : Nat := s.raw

def PacketSequence.mk2 (kind : PacketKind) (origin : PacketOrigin) (seq : Nat) :
    Except PacketError PacketSequence :=
  if seq &&& packetSeqHeaderMask ≠ 0 then
    .error .invalidSequenceNumber
  else
    let seq1 := if kind = PacketKind.response then seq ||| packetSeqResponMask else seq
    let seq2 := if origin = PacketOrigin.client then seq1 ||| packetSeqClientMask else seq1
    .ok (PacketSequence.fromRaw seq2)

def PacketSequence.origin (s : PacketSequence) : PacketOrigin :=
  if s.raw &&& packetSeqClientMask ≠ 0 then .client else .server

def PacketSequence.kind (s : PacketSequence) : PacketKind :=
  if s.raw &&& packetSeqResponMask ≠ 0 then .response else .request

def PacketSequence.number (s : PacketSequence) : Nat :=
  s.raw &&& 0x3FFFFFFF

/-! ## PacketWord (src/conn/packet.rs lines 240-280) -/

structure PacketWord where
  bytes : List Nat
deriving DecidableEq

/-- Source: PacketWord::is_valid_char — not NUL and in the u8 ASCII range. -/
def isValidWordChar (b : Nat) : Bool :=
  b != 0 && Nat.ble b 127

def PacketWord.fromBytes (bytes : List Nat) : Except PacketError PacketWord :=
  match bytes.find? (fun b => !isValidWordChar b) with
  | some b => .error (.invalidWordChar b)
  | none => .ok ⟨bytes⟩

def PacketWord.byteSize (w : PacketWord) : Nat := w.bytes.length

/-! ## Packet (src/conn/packet.rs lines 130-149) -/

structure Packet where
  seq : PacketSequence
  words : List PacketWord
deriving DecidableEq

/-- Source: Packet::byte_size — header plus per word the 4-byte size
prefix, content, and NUL terminator. -/
def Packet.byteSize (p : Packet) : Nat :=
  (p.words.map (fun w => w.byteSize + packetWordMinSize)).sum + packetHeaderSize

/-! ## Size field reading and writing (src/conn/packet.rs lines 104-126) -/

def readU32AsBoundedUsize (val lo hi : Nat) : Except PacketError Nat :=
  if val < lo ∨ val > hi then .error (.invalidSize val) else .ok val

def writeSizeU32 (buf : List Nat) (size : Nat) : Except PacketError (List Nat) :=
  if size > u32Max then .error (.invalidSize size) else .ok (buf ++ u32leBytes size)

/-! ## read_packet (src/conn/packet.rs lines 16-76).

The BytesMut in the source is mutated in place; the embedding returns the
parse result together with the buffer left behind.  readWords is the word
loop of lines 44-74. -/

def readWords : Nat → List Nat → Except PacketError (List PacketWord)
  | 0, _ => .ok []
  | n + 1, body =>
    if body.length < 4 then .error .malformed
    else
      match readU32AsBoundedUsize (readU32le body) packetWordMinSize packetWordMaxSize with
      | .error e => .error e
      | .ok wordSize =>
        let body1 := body.drop 4
        if body1.length < wordSize + 1 then .error .malformed
        else
          let content := body1.take wordSize
          let body2 := body1.drop wordSize
          if body2.take 1 ≠ [0] then .error .malformed
          else
            match PacketWord.fromBytes content with
            | .error e => .error e
            | .ok w =>
              match readWords n (body2.drop 1) with
              | .error e => .error e
              | .ok ws => .ok (w :: ws)

def readPacket (buf : List Nat) : Except PacketError (Option Packet × List Nat) :=
  if buf.length < packetHeaderSize then .ok (none, buf)
  else
    let header := buf.take packetHeaderSize
    let rest := buf.drop packetHeaderSize
    let seq := PacketSequence.fromRaw (readU32le header)
    match readU32AsBoundedUsize (readU32le (header.drop 4)) packetHeaderSize packetMaxSize with
    | .error e => .error e
    | .ok size =>
      match readU32AsBoundedUsize (readU32le (header.drop 8)) 0 packetMaxWords with
      | .error e => .error e
      | .ok wordCount =>
        let bodySize := size - packetHeaderSize
        if rest.length < bodySize then .ok (none, buf)
        else
          match readWords wordCount (rest.take bodySize) with
          | .error e => .error e
          | .ok words => .ok (some ⟨seq, words⟩, rest.drop bodySize)

/-! ## write_packet (src/conn/packet.rs lines 79-100) -/

def writeWords (buf : List Nat) : List PacketWord → Except PacketError (List Nat)
  | [] => .ok buf
  | w :: ws =>
    match writeSizeU32 buf w.byteSize with
    | .error e => .error e
    | .ok buf1 => writeWords (buf1 ++ w.bytes ++ [0]) ws

def writePacket (buf : List Nat) (p : Packet) : Except PacketError (List Nat) :=
  let buf1 := buf ++ u32leBytes p.seq.raw
  match writeSizeU32 buf1 p.byteSize with
  | .error e => .error e
  | .ok buf2 =>
    match writeSizeU32 buf2 p.words.length with
    | .error e => .error e
    | .ok buf3 => writeWords buf3 p.words

/-! ## Reference images of the encoder, used to state round-trip laws. -/

def encodeWords : List PacketWord → List Nat
  | [] => []
  | w :: ws => u32leBytes w.byteSize ++ w.bytes ++ [0] ++ encodeWords ws

def encodePacket (p : Packet) : List Nat :=
  u32leBytes p.seq.raw ++ u32leBytes p.byteSize ++ u32leBytes p.words.length ++
    encodeWords p.words

/-- A word every byte of which passes the decoder validation. -/
def PacketWord.valid (w : PacketWord) : Prop :=
  ∀ b ∈ w.bytes, isValidWordChar b = true

instance (w : PacketWord) : Decidable w.valid := by
  unfold PacketWord.valid; infer_instance

section sanity

example :
    readPacket [0, 0, 0, 0x80, 32, 0, 0, 0, 2, 0, 0, 0,
      5, 0, 0, 0, 104, 101, 108, 108, 111, 0,
      5, 0, 0, 0, 119, 111, 114, 108, 100, 0] =
      .ok (some ⟨⟨0x80000000⟩, [⟨[104, 101, 108, 108, 111]⟩, ⟨[119, 111, 114, 108, 100]⟩]⟩,
        []) := by
  decide

example :
    writePacket [] ⟨⟨0x80000000⟩, [⟨[104, 101, 108, 108, 111]⟩, ⟨[119, 111, 114, 108, 100]⟩]⟩ =
      .ok [0, 0, 0, 0x80, 32, 0, 0, 0, 2, 0, 0, 0,
        5, 0, 0, 0, 104, 101, 108, 108, 111, 0,
        5, 0, 0, 0, 119, 111, 114, 108, 100, 0] := by
  decide

end sanity

/-! ## Little-endian lemmas -/

theorem u32leBytes_length (n : Nat) : (u32leBytes n).length = 4 := rfl

theorem readU32le_u32leBytes_append (n : Nat) (l : List Nat) :
    readU32le (u32leBytes n ++ l) = n % 4294967296 := by
  show n % 256 + 256 * (n / 256 % 256) + 65536 * (n / 65536 % 256) +
      16777216 * (n / 16777216 % 256) = n % 4294967296
  omega

theorem u32leBytes_readU32le_take (l : List Nat) (h : 4 ≤ l.length)
    (hb : ∀ x ∈ l, x < 256) : u32leBytes (readU32le l) = l.take 4 := by
  rcases l with _ | ⟨a, _ | ⟨b, _ | ⟨c, _ | ⟨d, t⟩⟩⟩⟩ <;> simp at h
  have ha : a < 256 := hb a (by simp)
  have hbb : b < 256 := hb b (by simp)
  have hc : c < 256 := hb c (by simp)
  have hd : d < 256 := hb d (by simp)
  show [(a + 256 * b + 65536 * c + 16777216 * d) % 256,
      (a + 256 * b + 65536 * c + 16777216 * d) / 256 % 256,
      (a + 256 * b + 65536 * c + 16777216 * d) / 65536 % 256,
      (a + 256 * b + 65536 * c + 16777216 * d) / 16777216 % 256] = [a, b, c, d]
  have e1 : (a + 256 * b + 65536 * c + 16777216 * d) % 256 = a := by omega
  have e2 : (a + 256 * b + 65536 * c + 16777216 * d) / 256 % 256 = b := by omega
  have e3 : (a + 256 * b + 65536 * c + 16777216 * d) / 65536 % 256 = c := by omega
  have e4 : (a + 256 * b + 65536 * c + 16777216 * d) / 16777216 % 256 = d := by omega
  rw [e1, e2, e3, e4]

/-! ## Bounded size field lemmas -/

theorem readU32AsBoundedUsize_ok {val lo hi x : Nat} :
    readU32AsBoundedUsize val lo hi = .ok x ↔ lo ≤ val ∧ val ≤ hi ∧ x = val := by
  unfold readU32AsBoundedUsize
  split
  · simp only [reduceCtorEq, false_iff]
    omega
  · simp only [Except.ok.injEq]
    constructor
    · intro h
      exact ⟨by omega, by omega, h.symm⟩
    · intro h
      exact h.2.2.symm

theorem readU32AsBoundedUsize_of_bounds {val lo hi : Nat} (h1 : lo ≤ val) (h2 : val ≤ hi) :
    readU32AsBoundedUsize val lo hi = .ok val :=
  readU32AsBoundedUsize_ok.mpr ⟨h1, h2, rfl⟩

theorem writeSizeU32_of_le {buf : List Nat} {size : Nat} (h : size ≤ u32Max) :
    writeSizeU32 buf size = .ok (buf ++ u32leBytes size) := by
  unfold writeSizeU32
  rw [if_neg (by omega)]

/-! ## PacketWord validity lemmas -/

theorem PacketWord.fromBytes_of_valid (w : PacketWord) (h : w.valid) :
    PacketWord.fromBytes w.bytes = .ok w := by
  unfold PacketWord.fromBytes
  have hfind : w.bytes.find? (fun b => !isValidWordChar b) = none := by
    rw [List.find?_eq_none]
    intro x hx
    simp [h x hx]
  rw [hfind]

theorem PacketWord.fromBytes_ok_inv {bytes : List Nat} {w : PacketWord}
    (h : PacketWord.fromBytes bytes = .ok w) : w = ⟨bytes⟩ ∧ ∀ b ∈ bytes, isValidWordChar b = true := by
  unfold PacketWord.fromBytes at h
  rcases hfind : bytes.find? (fun b => !isValidWordChar b) with _ | b
  · rw [hfind] at h
    refine ⟨(Except.ok.inj h).symm, ?_⟩
    intro b hb
    have := List.find?_eq_none.mp hfind b hb
    simpa using this
  · rw [hfind] at h
    exact absurd h (by simp)

/-! ## Encoder image lemmas -/

theorem encodeWords_length (ws : List PacketWord) :
    (encodeWords ws).length = (ws.map (fun w => w.byteSize + packetWordMinSize)).sum := by
  induction ws with
  | nil => rfl
  | cons w ws ih =>
    simp only [encodeWords, List.length_append, u32leBytes_length, List.length_cons,
      List.length_nil, List.map_cons, List.sum_cons, ih, PacketWord.byteSize,
      packetWordMinSize]
    omega

theorem writeWords_eq (ws : List PacketWord) (buf : List Nat)
    (h : ∀ w ∈ ws, w.byteSize ≤ u32Max) :
    writeWords buf ws = .ok (buf ++ encodeWords ws) := by
  induction ws generalizing buf with
  | nil => simp [writeWords, encodeWords]
  | cons w ws ih =>
    rw [writeWords, writeSizeU32_of_le (h w (by simp))]
    show writeWords (buf ++ u32leBytes w.byteSize ++ w.bytes ++ [0]) ws =
      .ok (buf ++ encodeWords (w :: ws))
    rw [ih (buf ++ u32leBytes w.byteSize ++ w.bytes ++ [0])
      (fun x hx => h x (List.mem_cons_of_mem w hx))]
    simp [encodeWords]

theorem writePacket_eq (p : Packet)
    (hsize : p.byteSize ≤ u32Max) (hcount : p.words.length ≤ u32Max)
    (hwords : ∀ w ∈ p.words, w.byteSize ≤ u32Max) :
    writePacket [] p = .ok (encodePacket p) := by
  have h1 := @writeSizeU32_of_le ([] ++ u32leBytes p.seq.raw) p.byteSize hsize
  have h2 := @writeSizeU32_of_le
    ([] ++ u32leBytes p.seq.raw ++ u32leBytes p.byteSize) p.words.length hcount
  have h3 := writeWords_eq p.words
    ([] ++ u32leBytes p.seq.raw ++ u32leBytes p.byteSize ++ u32leBytes p.words.length) hwords
  rw [writePacket]
  simp only [h1]
  simp only [h2]
  simp only [h3]
  simp [encodePacket]

/-! ## Decoding the encoder image -/

theorem readWords_encodeWords (ws : List PacketWord)
    (hmin : ∀ w ∈ ws, packetWordMinSize ≤ w.byteSize)
    (hmax : ∀ w ∈ ws, w.byteSize ≤ packetWordMaxSize)
    (hvalid : ∀ w ∈ ws, w.valid) :
    readWords ws.length (encodeWords ws) = .ok ws := by
  induction ws with
  | nil => rfl
  | cons w ws ih =>
    have hmem : w ∈ w :: ws := by simp
    have hw5 : packetWordMinSize ≤ w.byteSize := hmin w hmem
    have hwM : w.byteSize ≤ packetWordMaxSize := hmax w hmem
    have hlt : w.byteSize < 4294967296 := by
      have h1 : w.byteSize ≤ 16367 := hwM
      omega
    have hv := hvalid w hmem
    have ihres := ih (fun x hx => hmin x (List.mem_cons_of_mem w hx))
      (fun x hx => hmax x (List.mem_cons_of_mem w hx))
      (fun x hx => hvalid x (List.mem_cons_of_mem w hx))
    have hb : encodeWords (w :: ws) =
        u32leBytes w.byteSize ++ (w.bytes ++ ([0] ++ encodeWords ws)) := by
      simp [encodeWords]
    have hlen4 : ¬ ((u32leBytes w.byteSize ++ (w.bytes ++ ([0] ++ encodeWords ws))).length < 4) := by
      simp only [List.length_append, u32leBytes_length]
      omega
    have hdrop4 : (u32leBytes w.byteSize ++ (w.bytes ++ ([0] ++ encodeWords ws))).drop 4 =
        w.bytes ++ ([0] ++ encodeWords ws) := List.drop_left' (u32leBytes_length _)
    have hlenrest : ¬ ((w.bytes ++ ([0] ++ encodeWords ws)).length < w.byteSize + 1) := by
      simp only [List.length_append, List.length_cons, PacketWord.byteSize]
      omega
    have htake : (w.bytes ++ ([0] ++ encodeWords ws)).take w.byteSize = w.bytes :=
      List.take_left' rfl
    have hdropw : (w.bytes ++ ([0] ++ encodeWords ws)).drop w.byteSize = 0 :: encodeWords ws :=
      List.drop_left' rfl
    rw [List.length_cons, hb, readWords, if_neg hlen4, readU32le_u32leBytes_append,
      Nat.mod_eq_of_lt hlt, readU32AsBoundedUsize_of_bounds hw5 hwM]
    simp only [hdrop4]
    rw [if_neg hlenrest]
    simp only [htake, hdropw]
    simp [PacketWord.fromBytes_of_valid w hv, ihres]

theorem byteSize_word_le (p : Packet) (hsz : p.byteSize ≤ packetMaxSize) :
    ∀ w ∈ p.words, w.byteSize ≤ packetWordMaxSize := by
  intro w hw
  have hle : w.byteSize + packetWordMinSize ≤
      (p.words.map (fun w => w.byteSize + packetWordMinSize)).sum :=
    List.single_le_sum (fun x _ => Nat.zero_le x) _ (List.mem_map_of_mem _ hw)
  have hle2 : w.byteSize + 5 ≤
      (p.words.map (fun w => w.byteSize + packetWordMinSize)).sum := hle
  have hsz2 : (p.words.map (fun w => w.byteSize + packetWordMinSize)).sum + 12 ≤ 16384 := hsz
  show w.byteSize ≤ 16367
  omega

theorem readPacket_encodePacket (p : Packet) (hraw : p.seq.raw < 4294967296)
    (hwc : p.words.length ≤ packetMaxWords) (hsz : p.byteSize ≤ packetMaxSize)
    (hmin : ∀ w ∈ p.words, packetWordMinSize ≤ w.byteSize)
    (hvalid : ∀ w ∈ p.words, w.valid) :
    readPacket (encodePacket p) = .ok (some p, []) := by
  have hmax := byteSize_word_le p hsz
  have hsum12 : p.byteSize =
      (p.words.map (fun w => w.byteSize + packetWordMinSize)).sum + 12 := rfl
  have h12 : (12 : Nat) ≤ p.byteSize := by omega
  have hszn : p.byteSize ≤ 16384 := hsz
  have hwcn : p.words.length ≤ 256 := hwc
  have hlenD : (encodeWords p.words).length = p.byteSize - 12 := by
    rw [encodeWords_length]
    omega
  have hised : encodePacket p =
      (u32leBytes p.seq.raw ++ u32leBytes p.byteSize ++ u32leBytes p.words.length) ++
        encodeWords p.words := by
    simp [encodePacket]
  have hhlen : (u32leBytes p.seq.raw ++ u32leBytes p.byteSize ++
      u32leBytes p.words.length).length = packetHeaderSize := by
    simp [u32leBytes_length, packetHeaderSize]
  have hlen : (encodePacket p).length = p.byteSize := by
    rw [hised, List.length_append, hhlen, hlenD]
    show 12 + (p.byteSize - 12) = p.byteSize
    omega
  have htail : (encodePacket p).drop packetHeaderSize = encodeWords p.words := by
    rw [hised]
    exact List.drop_left' hhlen
  have hheader : (encodePacket p).take packetHeaderSize =
      u32leBytes p.seq.raw ++ u32leBytes p.byteSize ++ u32leBytes p.words.length := by
    rw [hised]
    exact List.take_left' hhlen
  have e1 : readU32le (u32leBytes p.seq.raw ++ u32leBytes p.byteSize ++
      u32leBytes p.words.length) = p.seq.raw := by
    rw [List.append_assoc, readU32le_u32leBytes_append, Nat.mod_eq_of_lt hraw]
  have e2 : (u32leBytes p.seq.raw ++ u32leBytes p.byteSize ++
      u32leBytes p.words.length).drop 4 =
      u32leBytes p.byteSize ++ u32leBytes p.words.length := by
    rw [List.append_assoc]
    exact List.drop_left' (u32leBytes_length _)
  have e3 : (u32leBytes p.seq.raw ++ u32leBytes p.byteSize ++
      u32leBytes p.words.length).drop 8 = u32leBytes p.words.length :=
    List.drop_left' (by simp [u32leBytes_length])
  have e4 : readU32le (u32leBytes p.byteSize ++ u32leBytes p.words.length) = p.byteSize := by
    rw [readU32le_u32leBytes_append]
    exact Nat.mod_eq_of_lt (by omega)
  have e5 : readU32le (u32leBytes p.words.length) = p.words.length := by
    have h := readU32le_u32leBytes_append p.words.length []
    rw [List.append_nil] at h
    rw [h]
    exact Nat.mod_eq_of_lt (by omega)
  have hhd : p.byteSize - packetHeaderSize = (encodeWords p.words).length := by
    rw [hlenD]
    rfl
  have e6 : (encodeWords p.words).take (p.byteSize - packetHeaderSize) = encodeWords p.words := by
    rw [hhd, List.take_length]
  have e7 : (encodeWords p.words).drop (p.byteSize - packetHeaderSize) = [] := by
    rw [hhd, List.drop_length]
  rw [readPacket, if_neg (by rw [hlen]; show ¬ p.byteSize < 12; omega)]
  simp only [hheader, htail, e1, e2, e3, e4, e5]
  simp only [readU32AsBoundedUsize_of_bounds (show packetHeaderSize ≤ p.byteSize from h12) hsz]
  simp only [readU32AsBoundedUsize_of_bounds (Nat.zero_le _) hwc]
  rw [if_neg (by rw [hlenD]; show ¬ p.byteSize - 12 < p.byteSize - 12; omega)]
  simp only [e6, e7, readWords_encodeWords p.words hmin hmax hvalid]
  rfl

/-! ## Inversion of the decoder: every clean parse is an encoder image
followed by the tolerated trailing body bytes. -/

theorem readU32le_lt (l : List Nat) (hb : ∀ x ∈ l, x < 256) :
    readU32le l < 4294967296 := by
  rcases l with _ | ⟨a, _ | ⟨b, _ | ⟨c, _ | ⟨d, t⟩⟩⟩⟩ <;> simp only [readU32le]
  · omega
  · have := hb a (by simp)
    omega
  · have h1 := hb a (by simp)
    have h2 := hb b (by simp)
    omega
  · have h1 := hb a (by simp)
    have h2 := hb b (by simp)
    have h3 := hb c (by simp)
    omega
  · have h1 := hb a (by simp)
    have h2 := hb b (by simp)
    have h3 := hb c (by simp)
    have h4 := hb d (by simp)
    omega

theorem take_one_eq_zero {l : List Nat} (h : l.take 1 = [0]) : l = 0 :: l.drop 1 := by
  cases l with
  | nil => simp at h
  | cons a t =>
    have ha : a = 0 := by simpa using h
    simp [ha]

theorem readWords_ok_inv : ∀ (n : Nat) (body : List Nat) (ws : List PacketWord),
    (∀ x ∈ body, x < 256) →
    readWords n body = .ok ws →
    ws.length = n ∧
    (∀ w ∈ ws, w.valid ∧ packetWordMinSize ≤ w.byteSize ∧ w.byteSize ≤ packetWordMaxSize) ∧
    ∃ leftover, body = encodeWords ws ++ leftover := by
  intro n
  induction n with
  | zero =>
    intro body ws _ h
    have hws : ws = [] := (Except.ok.inj h).symm
    subst hws
    exact ⟨rfl, by simp, body, by simp [encodeWords]⟩
  | succ n ih =>
    intro body ws hb h
    rw [readWords] at h
    by_cases h4 : body.length < 4
    · rw [if_pos h4] at h
      exact absurd h (by simp)
    rw [if_neg h4] at h
    rcases hs : readU32AsBoundedUsize (readU32le body) packetWordMinSize packetWordMaxSize with
      e | s
    · rw [hs] at h
      exact absurd h (by simp)
    rw [hs] at h
    obtain ⟨hs5, hsM, hsval⟩ := readU32AsBoundedUsize_ok.mp hs
    simp only at h
    by_cases h5 : (body.drop 4).length < s + 1
    · rw [if_pos h5] at h
      exact absurd h (by simp)
    rw [if_neg h5] at h
    by_cases h6 : ((body.drop 4).drop s).take 1 ≠ [0]
    · rw [if_pos h6] at h
      exact absurd h (by simp)
    rw [if_neg h6] at h
    have h6e : ((body.drop 4).drop s).take 1 = [0] := not_not.mp h6
    rcases hw : PacketWord.fromBytes ((body.drop 4).take s) with e | w
    · rw [hw] at h
      exact absurd h (by simp)
    rw [hw] at h
    rcases hr : readWords n ((body.drop 4).drop s |>.drop 1) with e | ws1
    · rw [hr] at h
      exact absurd h (by simp)
    rw [hr] at h
    have hws : ws = w :: ws1 := (Except.ok.inj h).symm
    subst hws
    obtain ⟨hwbytes, hwvalid⟩ := PacketWord.fromBytes_ok_inv hw
    have hbrec : ∀ x ∈ ((body.drop 4).drop s).drop 1, x < 256 := fun x hx =>
      hb x (List.mem_of_mem_drop (List.mem_of_mem_drop (List.mem_of_mem_drop hx)))
    obtain ⟨hlen1, hprops1, leftover, hbody1⟩ := ih _ _ hbrec hr
    have hwsize : w.byteSize = s := by
      rw [hwbytes]
      show ((body.drop 4).take s).length = s
      rw [List.length_take]
      omega
    have hsplit4 : body = u32leBytes s ++ body.drop 4 := by
      have ht : body.take 4 = u32leBytes s := by
        rw [hsval]
        exact (u32leBytes_readU32le_take body (by omega) hb).symm
      rw [← ht, List.take_append_drop]
    have hsplitw : body.drop 4 = (body.drop 4).take s ++ (0 :: ((body.drop 4).drop s).drop 1) := by
      have h0 : (body.drop 4).drop s = 0 :: ((body.drop 4).drop s).drop 1 :=
        take_one_eq_zero h6e
      rw [← h0, List.take_append_drop]
    refine ⟨by simp [hlen1], ?_, leftover, ?_⟩
    · intro x hx
      rcases List.mem_cons.mp hx with hx | hx
      · subst hx
        refine ⟨?_, ?_, ?_⟩
        · rw [hwbytes]
          intro b hbmem
          exact hwvalid b hbmem
        · omega
        · omega
      · exact hprops1 x hx
    · rw [hsplit4, hsplitw, hbody1, encodeWords, hwsize, hwbytes]
      show u32leBytes s ++ ((body.drop 4).take s ++ (0 :: (encodeWords ws1 ++ leftover))) =
        u32leBytes s ++ (body.drop 4).take s ++ [0] ++ encodeWords ws1 ++ leftover
      simp

theorem readPacket_eq_reduced (b : List Nat) (h12 : ¬ b.length < packetHeaderSize) :
    readPacket b =
      match readU32AsBoundedUsize (readU32le ((b.take packetHeaderSize).drop 4))
          packetHeaderSize packetMaxSize with
      | .error e => .error e
      | .ok size =>
        match readU32AsBoundedUsize (readU32le ((b.take packetHeaderSize).drop 8))
            0 packetMaxWords with
        | .error e => .error e
        | .ok wordCount =>
          if (b.drop packetHeaderSize).length < size - packetHeaderSize then .ok (none, b)
          else
            match readWords wordCount ((b.drop packetHeaderSize).take (size - packetHeaderSize)) with
            | .error e => .error e
            | .ok words =>
              .ok (some ⟨PacketSequence.fromRaw (readU32le (b.take packetHeaderSize)), words⟩,
                (b.drop packetHeaderSize).drop (size - packetHeaderSize)) := by
  rw [readPacket, if_neg h12]

theorem readPacket_ok_some_inv (b : List Nat) (p : Packet) (rest : List Nat)
    (hb : ∀ x ∈ b, x < 256)
    (h : readPacket b = .ok (some p, rest)) :
    ∃ size leftover,
      packetHeaderSize ≤ size ∧ size ≤ packetMaxSize ∧
      p.words.length ≤ packetMaxWords ∧ p.seq.raw < 4294967296 ∧
      (∀ w ∈ p.words, w.valid ∧ packetWordMinSize ≤ w.byteSize ∧
        w.byteSize ≤ packetWordMaxSize) ∧
      size = packetHeaderSize + (encodeWords p.words).length + leftover.length ∧
      b = u32leBytes p.seq.raw ++ u32leBytes size ++ u32leBytes p.words.length ++
        (encodeWords p.words ++ (leftover ++ rest)) := by
  by_cases h12 : b.length < packetHeaderSize
  · rw [readPacket, if_pos h12] at h
    simp at h
  rw [readPacket_eq_reduced b h12] at h
  rcases hsz : readU32AsBoundedUsize (readU32le ((b.take packetHeaderSize).drop 4))
      packetHeaderSize packetMaxSize with e | size
  · rw [hsz] at h
    exact absurd h (by simp)
  simp only [hsz] at h
  obtain ⟨hszlo, hszhi, hszval⟩ := readU32AsBoundedUsize_ok.mp hsz
  rcases hwc : readU32AsBoundedUsize (readU32le ((b.take packetHeaderSize).drop 8))
      0 packetMaxWords with e | wc
  · rw [hwc] at h
    exact absurd h (by simp)
  simp only [hwc] at h
  obtain ⟨_, hwchi, hwcval⟩ := readU32AsBoundedUsize_ok.mp hwc
  by_cases hshort : (b.drop packetHeaderSize).length < size - packetHeaderSize
  · rw [if_pos hshort] at h
    simp at h
  rw [if_neg hshort] at h
  rcases hrw : readWords wc ((b.drop packetHeaderSize).take (size - packetHeaderSize)) with
    e | words
  · rw [hrw] at h
    exact absurd h (by simp)
  simp only [hrw] at h
  have h2 := Except.ok.inj h
  have h2a : some (⟨PacketSequence.fromRaw (readU32le (b.take packetHeaderSize)), words⟩ :
      Packet) = some p := congrArg Prod.fst h2
  have hp : p = ⟨PacketSequence.fromRaw (readU32le (b.take packetHeaderSize)), words⟩ :=
    (Option.some.inj h2a).symm
  have hrest : rest = (b.drop packetHeaderSize).drop (size - packetHeaderSize) :=
    (congrArg Prod.snd h2).symm
  have hbody_mem : ∀ x ∈ (b.drop packetHeaderSize).take (size - packetHeaderSize), x < 256 :=
    fun x hx => hb x (List.mem_of_mem_drop (List.mem_of_mem_take hx))
  obtain ⟨hwlen, hwprops, leftover, hbody⟩ := readWords_ok_inv wc _ words hbody_mem hrw
  have hbodylen : ((b.drop packetHeaderSize).take (size - packetHeaderSize)).length =
      size - packetHeaderSize := by
    rw [List.length_take]
    omega
  have hdbdecomp : b.drop packetHeaderSize =
      (encodeWords words ++ leftover) ++ rest := by
    rw [hrest, ← hbody, List.take_append_drop]
  have hheader_mem : ∀ x ∈ b.take packetHeaderSize, x < 256 :=
    fun x hx => hb x (List.mem_of_mem_take hx)
  have hhlen : (b.take packetHeaderSize).length = 12 := by
    rw [List.length_take]
    show min 12 b.length = 12
    have h12b : 12 ≤ b.length := by
      have : ¬ b.length < 12 := h12
      omega
    omega
  have hh1 : (b.take packetHeaderSize).take 4 =
      u32leBytes (readU32le (b.take packetHeaderSize)) :=
    (u32leBytes_readU32le_take (b.take packetHeaderSize) (by omega) hheader_mem).symm
  have hh2 : ((b.take packetHeaderSize).drop 4).take 4 =
      u32leBytes (readU32le ((b.take packetHeaderSize).drop 4)) :=
    (u32leBytes_readU32le_take ((b.take packetHeaderSize).drop 4)
      (by rw [List.length_drop, hhlen]; omega)
      (fun x hx => hheader_mem x (List.mem_of_mem_drop hx))).symm
  have hh3 : ((b.take packetHeaderSize).drop 4).drop 4 = (b.take packetHeaderSize).drop 8 := by
    simp [List.drop_drop]
  have hh4 : (b.take packetHeaderSize).drop 8 =
      u32leBytes (readU32le ((b.take packetHeaderSize).drop 8)) := by
    have hlen8 : ((b.take packetHeaderSize).drop 8).length = 4 := by
      rw [List.length_drop, hhlen]
    have htk := u32leBytes_readU32le_take ((b.take packetHeaderSize).drop 8) (by omega)
      (fun x hx => hheader_mem x (List.mem_of_mem_drop hx))
    have htk4 : ((b.take packetHeaderSize).drop 8).take 4 = (b.take packetHeaderSize).drop 8 := by
      rw [← hlen8, List.take_length]
    rw [htk4] at htk
    exact htk.symm
  have hheaddecomp : b.take packetHeaderSize =
      u32leBytes (readU32le (b.take packetHeaderSize)) ++
        (u32leBytes (readU32le ((b.take packetHeaderSize).drop 4)) ++
          u32leBytes (readU32le ((b.take packetHeaderSize).drop 8))) := by
    conv =>
      lhs
      rw [← List.take_append_drop 4 (b.take packetHeaderSize)]
    rw [hh1]
    congr 1
    conv =>
      lhs
      rw [← List.take_append_drop 4 ((b.take packetHeaderSize).drop 4)]
    rw [hh2]
    congr 1
    rw [hh3]
    exact hh4
  have hraw : p.seq.raw = readU32le (b.take packetHeaderSize) := by
    rw [hp]
    rfl
  have hrawlt : p.seq.raw < 4294967296 := by
    rw [hraw]
    exact readU32le_lt _ hheader_mem
  have hpwords : p.words = words := by
    rw [hp]
  have hszlo2 : packetHeaderSize ≤ size := by
    rw [hszval]
    exact hszlo
  have hszhi2 : size ≤ packetMaxSize := by
    rw [hszval]
    exact hszhi
  refine ⟨size, leftover, hszlo2, hszhi2, ?_, hrawlt, ?_, ?_, ?_⟩
  · rw [hpwords, hwlen, hwcval]
    exact hwchi
  · rw [hpwords]
    exact hwprops
  · have hEL : (encodeWords words ++ leftover).length = size - packetHeaderSize := by
      rw [← hbody]
      exact hbodylen
    rw [hpwords]
    rw [List.length_append] at hEL
    have hEL2 : (encodeWords words).length + leftover.length = size - 12 := hEL
    show size = 12 + (encodeWords words).length + leftover.length
    have hlo12 : (12 : Nat) ≤ size := hszlo2
    omega
  · conv =>
      lhs
      rw [← List.take_append_drop packetHeaderSize b]
    rw [hheaddecomp, hdbdecomp, hpwords, ← hraw, ← hszval, ← hwcval, hwlen]
    simp

theorem readU32le_u32leBytes (n : Nat) : readU32le (u32leBytes n) = n % 4294967296 := by
  have h := readU32le_u32leBytes_append n []
  rwa [List.append_nil] at h

theorem drop4_u32triple (a s c : Nat) :
    (u32leBytes a ++ u32leBytes s ++ u32leBytes c).drop 4 = u32leBytes s ++ u32leBytes c := by
  rw [List.append_assoc]
  exact List.drop_left' (u32leBytes_length _)

theorem drop8_u32triple (a s c : Nat) :
    (u32leBytes a ++ u32leBytes s ++ u32leBytes c).drop 8 = u32leBytes c :=
  List.drop_left' (by simp [u32leBytes_length])

/-- A buffer that parses cleanly with no residue re-encodes to itself as soon
as its declared size is exactly the packet wire size (no trailing body bytes). -/
theorem writePacket_of_clean_parse (b : List Nat) (p : Packet)
    (hb : ∀ x ∈ b, x < 256)
    (h : readPacket b = .ok (some p, []))
    (hexact : b.length = p.byteSize) :
    writePacket [] p = .ok b := by
  obtain ⟨size, leftover, hlo, hhi, hwcle, hrawlt, hprops, hsize, hbeq⟩ :=
    readPacket_ok_some_inv b p [] hb h
  have hsize2 : size = 12 + (encodeWords p.words).length + leftover.length := hsize
  have hblen : b.length = 12 + (encodeWords p.words).length + leftover.length := by
    rw [hbeq]
    simp only [List.length_append, u32leBytes_length, List.length_nil]
    omega
  have hbyte : p.byteSize = (encodeWords p.words).length + 12 := by
    show (p.words.map (fun w => w.byteSize + packetWordMinSize)).sum + packetHeaderSize = _
    rw [← encodeWords_length]
    rfl
  have hL0 : leftover.length = 0 := by omega
  have hL : leftover = [] := List.eq_nil_of_length_eq_zero hL0
  subst hL
  have hszeq : size = p.byteSize := by omega
  have h1 : p.byteSize ≤ u32Max := by
    show p.byteSize ≤ 4294967295
    have h1a : size ≤ 16384 := hhi
    omega
  have h2 : p.words.length ≤ u32Max := by
    show p.words.length ≤ 4294967295
    have h2a : p.words.length ≤ 256 := hwcle
    omega
  have h3 : ∀ w ∈ p.words, w.byteSize ≤ u32Max := by
    intro w hw
    have h3a : w.byteSize ≤ 16367 := (hprops w hw).2.2
    show w.byteSize ≤ 4294967295
    omega
  rw [writePacket_eq p h1 h2 h3, hbeq, hszeq]
  simp [encodePacket]

/-- Feeding a strict prefix of a cleanly parsing buffer returns None and
leaves the prefix untouched (the header is reattached on a short body). -/
theorem readPacket_prefix_none (b1 b2 : List Nat) (p : Packet)
    (hb : ∀ x ∈ b1 ++ b2, x < 256)
    (h : readPacket (b1 ++ b2) = .ok (some p, []))
    (hne : b2 ≠ []) :
    readPacket b1 = .ok (none, b1) := by
  obtain ⟨size, leftover, hlo, hhi, hwcle, hrawlt, hprops, hsize, hbeq⟩ :=
    readPacket_ok_some_inv (b1 ++ b2) p [] hb h
  have hlo2 : (12 : Nat) ≤ size := hlo
  have hhi2 : size ≤ 16384 := hhi
  have hblen : (b1 ++ b2).length = size := by
    rw [hbeq]
    simp only [List.length_append, u32leBytes_length, List.length_nil]
    have hsize2 : size = 12 + (encodeWords p.words).length + leftover.length := hsize
    omega
  have hb1lt : b1.length < size := by
    rw [← hblen, List.length_append]
    have hb2pos : 0 < b2.length := List.length_pos.mpr hne
    omega
  by_cases h12 : b1.length < packetHeaderSize
  · rw [readPacket, if_pos h12]
  have h12n : (12 : Nat) ≤ b1.length := by
    have : ¬ b1.length < 12 := h12
    omega
  have htake12 : b1.take packetHeaderSize = (b1 ++ b2).take packetHeaderSize := by
    rw [List.take_append_eq_append_take]
    have hz : packetHeaderSize - b1.length = 0 := by
      show 12 - b1.length = 0
      omega
    rw [hz]
    simp
  have hbtake : (b1 ++ b2).take packetHeaderSize =
      u32leBytes p.seq.raw ++ u32leBytes size ++ u32leBytes p.words.length := by
    rw [hbeq]
    exact List.take_left' (by simp [u32leBytes_length, packetHeaderSize])
  have hb1take : b1.take packetHeaderSize =
      u32leBytes p.seq.raw ++ u32leBytes size ++ u32leBytes p.words.length :=
    htake12.trans hbtake
  have hszfield : readU32le ((b1.take packetHeaderSize).drop 4) = size := by
    rw [hb1take, drop4_u32triple, readU32le_u32leBytes_append]
    exact Nat.mod_eq_of_lt (by omega)
  have hwcfield : readU32le ((b1.take packetHeaderSize).drop 8) = p.words.length := by
    rw [hb1take, drop8_u32triple, readU32le_u32leBytes]
    have : p.words.length ≤ 256 := hwcle
    exact Nat.mod_eq_of_lt (by omega)
  rw [readPacket_eq_reduced b1 h12]
  rw [hszfield, hwcfield]
  simp only [readU32AsBoundedUsize_of_bounds hlo hhi]
  simp only [readU32AsBoundedUsize_of_bounds (Nat.zero_le _) hwcle]
  rw [if_pos]
  rw [List.length_drop]
  show b1.length - 12 < size - 12
  omega

/-! ## Sequence mask arithmetic.

The source manipulates the u32 sequence field with the masks
0x40000000 (response bit) and 0x80000000 (client bit); the lemmas below
characterise PacketSequence.mk2 on the numbers the check admits. -/

theorem testBit_of_lt30 {n : Nat} (h : n < 1073741824) {i : Nat} (hi : 30 ≤ i) :
    n.testBit i = false := by
  apply Nat.testBit_lt_two_pow
  calc n < 1073741824 := h
    _ = 2 ^ 30 := by norm_num
    _ ≤ 2 ^ i := Nat.pow_le_pow_right (by norm_num) hi

theorem mask30_testBit (i : Nat) : (1073741824 : Nat).testBit i = decide (30 = i) := by
  rw [show (1073741824 : Nat) = 2 ^ 30 by norm_num]
  exact Nat.testBit_two_pow

theorem mask31_testBit (i : Nat) : (2147483648 : Nat).testBit i = decide (31 = i) := by
  rw [show (2147483648 : Nat) = 2 ^ 31 by norm_num]
  exact Nat.testBit_two_pow

theorem land_header_mask_eq_zero {n : Nat} (h : n < 1073741824) :
    n &&& packetSeqHeaderMask = 0 := by
  have hmask : packetSeqHeaderMask = 2147483648 ||| 1073741824 := by
    norm_num [packetSeqHeaderMask, packetSeqClientMask, packetSeqResponMask]
  apply Nat.eq_of_testBit_eq
  intro i
  rw [hmask, Nat.testBit_land, Nat.testBit_lor, mask30_testBit, mask31_testBit,
    Nat.zero_testBit]
  by_cases hi : 30 ≤ i
  · simp [testBit_of_lt30 h hi]
  · have h30 : ¬ (30 = i) := by omega
    have h31 : ¬ (31 = i) := by omega
    simp [h30, h31]

theorem mod_two_pow30_lor_eq {n m : Nat} (h : n < 1073741824)
    (hm : ∀ i, i < 30 → m.testBit i = false) : (n ||| m) % 1073741824 = n := by
  rw [show (1073741824 : Nat) = 2 ^ 30 by norm_num]
  apply Nat.eq_of_testBit_eq
  intro i
  rw [Nat.testBit_mod_two_pow, Nat.testBit_lor]
  by_cases hi : i < 30
  · simp [hi, hm i hi]
  · have hge : 30 ≤ i := by omega
    simp [hi, testBit_of_lt30 h hge]

theorem mod_two_pow30_self {n : Nat} (h : n < 1073741824) : n % 1073741824 = n :=
  Nat.mod_eq_of_lt h

theorem number_eq_mod (raw : Nat) : raw &&& 1073741823 = raw % 1073741824 := by
  rw [show (1073741823 : Nat) = 2 ^ 30 - 1 by norm_num,
    show (1073741824 : Nat) = 2 ^ 30 by norm_num]
  exact Nat.and_pow_two_sub_one_eq_mod raw 30

theorem land_mask30_eq (raw : Nat) :
    raw &&& 1073741824 = (raw.testBit 30).toNat * 1073741824 := by
  rw [show (1073741824 : Nat) = 2 ^ 30 by norm_num]
  exact Nat.and_two_pow raw 30

theorem land_mask31_eq (raw : Nat) :
    raw &&& 2147483648 = (raw.testBit 31).toNat * 2147483648 := by
  rw [show (2147483648 : Nat) = 2 ^ 31 by norm_num]
  exact Nat.and_two_pow raw 31

theorem lor_testBit30 {n m : Nat} (h : n < 1073741824) :
    (n ||| m).testBit 30 = m.testBit 30 := by
  rw [Nat.testBit_lor, testBit_of_lt30 h (by omega)]
  simp

theorem lor_testBit31 {n m : Nat} (h : n < 1073741824) :
    (n ||| m).testBit 31 = m.testBit 31 := by
  rw [Nat.testBit_lor, testBit_of_lt30 h (by omega)]
  simp

theorem number_fromRaw (raw : Nat) :
    (PacketSequence.fromRaw raw).number = raw % 1073741824 := by
  show raw &&& 0x3FFFFFFF = raw % 1073741824
  rw [show (0x3FFFFFFF : Nat) = 1073741823 by norm_num, number_eq_mod]

theorem kind_fromRaw_request {raw : Nat} (hbit : raw.testBit 30 = false) :
    (PacketSequence.fromRaw raw).kind = PacketKind.request := by
  rw [PacketSequence.kind, if_neg]
  show ¬ raw &&& packetSeqResponMask ≠ 0
  rw [show packetSeqResponMask = 1073741824 by norm_num [packetSeqResponMask],
    land_mask30_eq, hbit]
  simp

theorem kind_fromRaw_response {raw : Nat} (hbit : raw.testBit 30 = true) :
    (PacketSequence.fromRaw raw).kind = PacketKind.response := by
  rw [PacketSequence.kind, if_pos]
  show raw &&& packetSeqResponMask ≠ 0
  rw [show packetSeqResponMask = 1073741824 by norm_num [packetSeqResponMask],
    land_mask30_eq, hbit]
  simp

theorem origin_fromRaw_server {raw : Nat} (hbit : raw.testBit 31 = false) :
    (PacketSequence.fromRaw raw).origin = PacketOrigin.server := by
  rw [PacketSequence.origin, if_neg]
  show ¬ raw &&& packetSeqClientMask ≠ 0
  rw [show packetSeqClientMask = 2147483648 by norm_num [packetSeqClientMask],
    land_mask31_eq, hbit]
  simp

theorem origin_fromRaw_client {raw : Nat} (hbit : raw.testBit 31 = true) :
    (PacketSequence.fromRaw raw).origin = PacketOrigin.client := by
  rw [PacketSequence.origin, if_pos]
  show raw &&& packetSeqClientMask ≠ 0
  rw [show packetSeqClientMask = 2147483648 by norm_num [packetSeqClientMask],
    land_mask31_eq, hbit]
  simp

/-- Characterisation of PacketSequence.mk2 below the reserved bits: the
construction succeeds and the three accessors recover the arguments. -/
theorem mk2_ok (kind : PacketKind) (origin : PacketOrigin) (n : Nat)
    (h : n < 1073741824) :
    ∃ s, PacketSequence.mk2 kind origin n = .ok s ∧
      s.number = n ∧ s.kind = kind ∧ s.origin = origin := by
  have hcheck : n &&& packetSeqHeaderMask = 0 := land_header_mask_eq_zero h
  have hm30 : ∀ i, i < 30 → (1073741824 : Nat).testBit i = false := by
    intro i hi
    rw [mask30_testBit]
    simp
    omega
  have hm31 : ∀ i, i < 30 → (2147483648 : Nat).testBit i = false := by
    intro i hi
    rw [mask31_testBit]
    simp
    omega
  have hself : n.testBit 30 = false := testBit_of_lt30 h (by omega)
  have hself31 : n.testBit 31 = false := testBit_of_lt30 h (by omega)
  rw [PacketSequence.mk2, if_neg (by rw [hcheck]; simp)]
  have hrsp : packetSeqResponMask = 1073741824 := by norm_num [packetSeqResponMask]
  have hcli : packetSeqClientMask = 2147483648 := by norm_num [packetSeqClientMask]
  cases kind <;> cases origin <;>
    simp only [reduceCtorEq, if_false, if_true, reduceIte, hrsp, hcli] <;>
    refine ⟨_, rfl, ?_, ?_, ?_⟩
  · rw [number_fromRaw]
    exact mod_two_pow30_self h
  · exact kind_fromRaw_request hself
  · exact origin_fromRaw_server hself31
  · rw [number_fromRaw]
    exact mod_two_pow30_lor_eq h (fun i hi => hm31 i hi)
  · refine kind_fromRaw_request ?_
    rw [lor_testBit30 h, mask31_testBit]
    simp
  · refine origin_fromRaw_client ?_
    rw [lor_testBit31 h, mask31_testBit]
    simp
  · rw [number_fromRaw]
    exact mod_two_pow30_lor_eq h (fun i hi => hm30 i hi)
  · refine kind_fromRaw_response ?_
    rw [lor_testBit30 h, mask30_testBit]
    simp
  · refine origin_fromRaw_server ?_
    rw [lor_testBit31 h, mask30_testBit]
    simp
  · rw [number_fromRaw, Nat.lor_assoc]
    refine mod_two_pow30_lor_eq h ?_
    intro i hi
    rw [Nat.testBit_lor, hm30 i hi, hm31 i hi]
    rfl
  · refine kind_fromRaw_response ?_
    rw [Nat.lor_assoc, lor_testBit30 h, Nat.testBit_lor, mask30_testBit, mask31_testBit]
    simp
  · refine origin_fromRaw_client ?_
    rw [Nat.lor_assoc, lor_testBit31 h, Nat.testBit_lor, mask30_testBit, mask31_testBit]
    simp

/-! ## Errors of the connection layer (src/conn/error.rs, src/conn/socket.rs) -/

inductive SocketError where
  | broken : SocketError
  | closed : SocketError
  | ioFailure : SocketError
  | packet : PacketError → SocketError
deriving DecidableEq

inductive Error where
  | body : Nat → Error
  | spawn : Error
  | socket : SocketError → Error
  | responder : Error
  | invalidSequence : Error
  | originMismatch : Error
  | requestFailed : Error
  | requestCancelled : Error
deriving DecidableEq

/-! ## Framed socket broken-state discipline (src/conn/socket.rs).

The Framed inner transport is external nondeterminism: each operation takes
the outcome the inner poll would produce and returns the Socket struct state
together with the outcome the wrapper reports. -/

structure SocketState where
  broken : Bool
deriving DecidableEq

/-- Source: FusedStream::is_terminated for Socket. -/
def SocketState.isTerminated (s : SocketState) : Bool := s.broken

/-- Outcome of polling the stream side: Poll::Pending or Poll::Ready(item). -/
inductive PollNext where
  | pending : PollNext
  | ready : Option (Except SocketError Packet) → PollNext
deriving DecidableEq

/-- Outcome of a sink poll: Poll::Pending or Poll::Ready(result). -/
inductive SinkPoll where
  | pending : SinkPoll
  | ready : Except SocketError Unit → SinkPoll
deriving DecidableEq

/-- Source: the Stream impl, socket.rs lines 45-57.  When terminated the
inner transport is not polled and the stream reports end-of-stream; an error
item latches the broken flag as it is yielded. -/
def socketPollNext (s : SocketState) (inner : PollNext) : SocketState × PollNext :=
  if s.isTerminated then (s, .ready none)
  else
    match inner with
    | .pending => (s, .pending)
    | .ready item =>
      let isErr := match item with
        | some (.error _) => true
        | _ => false
      ({ s with broken := isErr }, .ready item)

/-- Source: Sink::poll_ready, socket.rs lines 75-80. -/
def socketPollReady (s : SocketState) (inner : SinkPoll) : SocketState × SinkPoll :=
  if s.isTerminated then (s, .ready (.error .broken)) else (s, inner)

/-- Source: Sink::start_send, socket.rs lines 82-85. -/
def socketStartSend (s : SocketState) (item : Packet) (inner : Packet → Except SocketError Unit) :
    SocketState × Except SocketError Unit :=
  if s.isTerminated then (s, .error .broken) else (s, inner item)

/-- Source: Sink::poll_flush, socket.rs lines 87-92. -/
def socketPollFlush (s : SocketState) (inner : SinkPoll) : SocketState × SinkPoll :=
  if s.isTerminated then (s, .ready (.error .broken)) else (s, inner)

/-- Source: Sink::poll_close, socket.rs lines 94-99. -/
def socketPollClose (s : SocketState) (inner : SinkPoll) : SocketState × SinkPoll :=
  if s.isTerminated then (s, .ready (.error .broken)) else (s, inner)

/-! ## Respondable channel (src/conn/respondable.rs).

A Responder is the one-shot sender; its receiver may have been dropped.
A ResponseFuture wraps the matching one-shot receiver, or none when the
request channel was already disconnected at send time. -/

structure Responder where
  receiverAlive : Bool
deriving DecidableEq

/-- Source: oneshot Sender::send — fails returning the value when the
receiver was dropped. -/
def Responder.send (r : Responder) (response : List PacketWord) :
    Except (List PacketWord) Unit :=
  if r.receiverAlive then .ok () else .error response

/-- State of the one-shot receiver inside a ResponseFuture when it resolves. -/
inductive RxState where
  | canceled : RxState
  | delivered : List PacketWord → RxState
deriving DecidableEq

structure ResponseFuture where
  rx : Option RxState
deriving DecidableEq

/-- Source: Future::poll for ResponseFuture, respondable.rs lines 70-78. -/
def ResponseFuture.poll (f : ResponseFuture) : Except Error (List PacketWord) :=
  match f.rx with
  | none => .error .requestFailed
  | some .canceled => .error .requestCancelled
  | some (.delivered response) => .ok response

/-! ## Connection process (src/conn/connection.rs).

Role is the connection role tag; the source compares it directly with the
origin bit of an inbound sequence and stamps it as the origin of outbound
requests, so it carries the same two values as PacketOrigin. -/

abbrev Role := PacketOrigin

structure ConnState where
  nextSeq : Nat
  role : PacketOrigin
  sockBroken : Bool
  written : List Packet
  pendingRequests : List (Nat × Responder)
  pendingResponses : List (PacketSequence × List PacketWord)
deriving DecidableEq

/-- Source: ConnectionProcess::new — counter at 0, empty table, empty
in-flight set, fresh unbroken socket. -/
def initConnState (role : PacketOrigin) : ConnState :=
  { nextSeq := 0, role := role, sockBroken := false, written := [],
    pendingRequests := [], pendingResponses := [] }

/-- HashMap::remove on the pending-response table (keys are unique: they are
distinct counter values).  Returns the removed responder and the table
without that entry. -/
def lookupRemove (k : Nat) : List (Nat × Responder) →
    Option (Responder × List (Nat × Responder))
  | [] => none
  | (k2, r) :: rest =>
    if k2 = k then some (r, rest)
    else
      match lookupRemove k rest with
      | none => none
      | some (r2, rest2) => some (r2, (k2, r) :: rest2)

/-- Source: ConnectionProcess::handle_incoming_packet, connection.rs
lines 162-196.  The request arm appends the dispatched request (tagged with
the original sequence) to the in-flight set; the origin check there is
commented out in the source.  The response arm enforces origin, resolves the
pending responder, and discards the send result.  The second component
returns the delivery attempt for observation. -/
def handleIncomingPacket (s : ConnState) (packet : Packet) :
    Except Error (ConnState × Option (Responder × List PacketWord)) :=
  if packet.seq.kind = PacketKind.request then
    .ok ({ s with pendingResponses := s.pendingResponses ++ [(packet.seq, packet.words)] },
      none)
  else
    if packet.seq.origin ≠ s.role then
      .error .originMismatch
    else
      match lookupRemove packet.seq.number s.pendingRequests with
      | none => .error .invalidSequence
      | some (responder, remaining) =>
        let _ := responder.send packet.words
        .ok ({ s with pendingRequests := remaining }, some (responder, packet.words))

/-- Source: ConnectionProcess::handle_outgoing_request, connection.rs
lines 198-215.  The counter is read then incremented (u32 wrap explicit),
the sequence is built from the role, the packet written, and the responder
keyed under the consumed counter value. -/
def handleOutgoingRequest (s : ConnState) (request : List PacketWord)
    (responder : Responder) : Except Error ConnState :=
  let seqNum := s.nextSeq
  let s1 := { s with nextSeq := (s.nextSeq + 1) % 4294967296 }
  match PacketSequence.mk2 PacketKind.request s1.role seqNum with
  | .error _ => .error .invalidSequence
  | .ok seq =>
    if s1.sockBroken then .error (.socket .broken)
    else
      .ok { s1 with
        written := s1.written ++ [⟨seq, request⟩],
        pendingRequests := s1.pendingRequests ++ [(seqNum, responder)] }

/-- Source: ConnectionProcess::handle_outgoing_response, connection.rs
lines 217-232. -/
def handleOutgoingResponse (s : ConnState) (requestSeq : PacketSequence)
    (response : List PacketWord) : Except Error ConnState :=
  match PacketSequence.mk2 PacketKind.response requestSeq.origin requestSeq.number with
  | .error _ => .error .invalidSequence
  | .ok seq =>
    if s.sockBroken then .error (.socket .broken)
    else .ok { s with written := s.written ++ [⟨seq, response⟩] }

/-- The three arms of the select loop in ConnectionProcess::run
(connection.rs lines 234-252): the next socket stream item (none is clean
EOF), the next channel item (none is a closed request channel), or a
completed in-flight handler future (none when the set is idle). -/
inductive ConnEvent where
  | sockItem : Option (Except SocketError Packet) → ConnEvent
  | chanItem : Option (List PacketWord × Responder) → ConnEvent
  | handlerItem : Option (Except Error (PacketSequence × List PacketWord)) → ConnEvent

inductive StepOut where
  | next : ConnState → StepOut
  | halt : Except Error Unit → StepOut
deriving DecidableEq

/-- One iteration of ConnectionProcess::run on the event the select chose.
A completed handler future is removed from the in-flight set before its
response is written. -/
def stepRun (s : ConnState) (ev : ConnEvent) : StepOut :=
  match ev with
  | .sockItem none => .halt (.error (.socket .closed))
  | .sockItem (some (.error e)) => .halt (.error (.socket e))
  | .sockItem (some (.ok packet)) =>
    match handleIncomingPacket s packet with
    | .error e => .halt (.error e)
    | .ok (s2, _) => .next s2
  | .chanItem none => .halt (.error (.socket .closed))
  | .chanItem (some (request, responder)) =>
    match handleOutgoingRequest s request responder with
    | .error e => .halt (.error e)
    | .ok s2 => .next s2
  | .handlerItem none => .next s
  | .handlerItem (some (.error e)) => .halt (.error e)
  | .handlerItem (some (.ok (seq, response))) =>
    let s0 := { s with pendingResponses := s.pendingResponses.eraseP (fun e => e.1 == seq) }
    match handleOutgoingResponse s0 seq response with
    | .error e => .halt (.error e)
    | .ok s2 => .next s2

/-- Outbound requests drained from the channel one after another
(the chanItem arm of the loop, restricted to its success path). -/
def sendRequests (s : ConnState) : List (List PacketWord × Responder) →
    Except Error ConnState
  | [] => .ok s
  | (request, responder) :: rest =>
    match handleOutgoingRequest s request responder with
    | .error e => .error e
    | .ok s2 => sendRequests s2 rest

theorem mk2_fails_at_wrap (kind : PacketKind) (origin : PacketOrigin) (n : Nat)
    (h30 : n.testBit 30 = true ∨ n.testBit 31 = true) :
    PacketSequence.mk2 kind origin n = .error .invalidSequenceNumber := by
  rw [PacketSequence.mk2, if_pos]
  intro hzero
  have hmask : packetSeqHeaderMask = 2147483648 ||| 1073741824 := by
    norm_num [packetSeqHeaderMask, packetSeqClientMask, packetSeqResponMask]
  rcases h30 with hbit | hbit
  · have := congrArg (fun x => x.testBit 30) hzero
    simp only [Nat.testBit_land, Nat.zero_testBit, hmask, Nat.testBit_lor,
      mask30_testBit, mask31_testBit, hbit] at this
    simp at this
  · have := congrArg (fun x => x.testBit 31) hzero
    simp only [Nat.testBit_land, Nat.zero_testBit, hmask, Nat.testBit_lor,
      mask30_testBit, mask31_testBit, hbit] at this
    simp at this

/-! ## Claim theorems for the packet codec -/

/-- Claim C1 counterexample.  The claim as stated fails twice on the code.
First, the packet with sequence 0 and the single validated word OK satisfies
every side condition of the claim (1 word, wire size 19), write_packet
encodes it, yet read_packet rejects the encoding with InvalidSize 2 because
the decoder enforces a minimum word content size of 5.  Second, the byte
string with declared size 13, zero words and one trailing body byte decodes
cleanly, but re-encoding the decoded packet yields the 12-byte canonical
form, not the original bytes. -/
theorem c1_roundtrip_counterexample :
    (writePacket [] ⟨⟨0⟩, [⟨[79, 75]⟩]⟩ =
      .ok [0, 0, 0, 0, 19, 0, 0, 0, 1, 0, 0, 0, 2, 0, 0, 0, 79, 75, 0]) ∧
    readPacket [0, 0, 0, 0, 19, 0, 0, 0, 1, 0, 0, 0, 2, 0, 0, 0, 79, 75, 0] =
      .error (.invalidSize 2) ∧
    ([⟨[79, 75]⟩] : List PacketWord).length ≤ 256 ∧
    (⟨⟨0⟩, [⟨[79, 75]⟩]⟩ : Packet).byteSize ≤ 16384 ∧
    (∀ w ∈ ([⟨[79, 75]⟩] : List PacketWord), w.valid) ∧
    readPacket [0, 0, 0, 0, 13, 0, 0, 0, 0, 0, 0, 0, 7] =
      .ok (some ⟨⟨0⟩, []⟩, []) ∧
    writePacket [] ⟨⟨0⟩, []⟩ = .ok [0, 0, 0, 0, 12, 0, 0, 0, 0, 0, 0, 0] ∧
    [(0 : Nat), 0, 0, 0, 12, 0, 0, 0, 0, 0, 0, 0] ≠
      [0, 0, 0, 0, 13, 0, 0, 0, 0, 0, 0, 0, 7] := by
  decide

/-- Claim C1 (amended).  Round trip of the codec: for every packet of
validated words with words.len at most 256, total wire size at most 16384,
a u32 sequence field, and every word content at least 5 bytes (the decoder
minimum), write_packet produces exactly encodePacket p and read_packet
decodes it back to p consuming everything; conversely any byte buffer (of
real bytes) that decoded cleanly with no residue and whose length equals
the packet wire size (no tolerated trailing body bytes) is reproduced
byte-for-byte by re-encoding the decoded packet, so such an encoding is the
unique trailing-free byte representation. -/
theorem c1_roundtrip_amended :
    (∀ p : Packet, p.seq.raw < 4294967296 → p.words.length ≤ 256 →
      p.byteSize ≤ 16384 → (∀ w ∈ p.words, w.valid) →
      (∀ w ∈ p.words, 5 ≤ w.byteSize) →
      writePacket [] p = .ok (encodePacket p) ∧
      readPacket (encodePacket p) = .ok (some p, [])) ∧
    (∀ (b : List Nat) (p : Packet), (∀ x ∈ b, x < 256) →
      readPacket b = .ok (some p, []) → b.length = p.byteSize →
      writePacket [] p = .ok b) := by
  constructor
  · intro p hraw hwc hsz hvalid hmin
    have hmax := byteSize_word_le p hsz
    refine ⟨writePacket_eq p ?_ ?_ ?_, readPacket_encodePacket p hraw hwc hsz hmin hvalid⟩
    · show p.byteSize ≤ 4294967295
      have h1 : p.byteSize ≤ 16384 := hsz
      omega
    · show p.words.length ≤ 4294967295
      omega
    · intro w hw
      have h1 : w.byteSize ≤ 16367 := hmax w hw
      show w.byteSize ≤ 4294967295
      omega
  · intro b p hb h hexact
    exact writePacket_of_clean_parse b p hb h hexact

/-- Claim C1 witness: the two-word fixture packet satisfies every
hypothesis of both directions of the amended round trip. -/
theorem c1_roundtrip_amended_witness :
    (writePacket [] ⟨⟨2147483648⟩, [⟨[104, 101, 108, 108, 111]⟩, ⟨[119, 111, 114, 108, 100]⟩]⟩ =
      .ok (encodePacket ⟨⟨2147483648⟩, [⟨[104, 101, 108, 108, 111]⟩, ⟨[119, 111, 114, 108, 100]⟩]⟩) ∧
     readPacket (encodePacket ⟨⟨2147483648⟩, [⟨[104, 101, 108, 108, 111]⟩, ⟨[119, 111, 114, 108, 100]⟩]⟩) =
      .ok (some ⟨⟨2147483648⟩, [⟨[104, 101, 108, 108, 111]⟩, ⟨[119, 111, 114, 108, 100]⟩]⟩, [])) ∧
    writePacket [] ⟨⟨2147483648⟩, [⟨[104, 101, 108, 108, 111]⟩, ⟨[119, 111, 114, 108, 100]⟩]⟩ =
      .ok [0, 0, 0, 128, 32, 0, 0, 0, 2, 0, 0, 0,
        5, 0, 0, 0, 104, 101, 108, 108, 111, 0,
        5, 0, 0, 0, 119, 111, 114, 108, 100, 0] :=
  ⟨c1_roundtrip_amended.1 ⟨⟨2147483648⟩, [⟨[104, 101, 108, 108, 111]⟩, ⟨[119, 111, 114, 108, 100]⟩]⟩
      (by decide) (by decide) (by decide) (by decide) (by decide),
   c1_roundtrip_amended.2
      [0, 0, 0, 128, 32, 0, 0, 0, 2, 0, 0, 0,
        5, 0, 0, 0, 104, 101, 108, 108, 111, 0,
        5, 0, 0, 0, 119, 111, 114, 108, 100, 0]
      ⟨⟨2147483648⟩, [⟨[104, 101, 108, 108, 111]⟩, ⟨[119, 111, 114, 108, 100]⟩]⟩
      (by decide) (by decide) (by decide)⟩

/-- Claim C2.  The spec requires every declared word content size ws with
0 ≤ ws ≤ 16367 to be accepted and in particular the fixture
07 00 00 40 | 13 00 00 00 | 01 00 00 00 | 02 00 00 00 4F 4B 00 to decode to
the single word OK; the decoder instead rejects any ws below 5 (the word
frame overhead constant misapplied as a minimum content size), so the
fixture fails with InvalidSize 2, a word size of 0 fails with InvalidSize 0,
and sizes 5 through 16367 are the accepted range. -/
theorem c2_word_size_lower_bound_bug :
    readPacket [0x07, 0, 0, 0x40, 0x13, 0, 0, 0, 1, 0, 0, 0,
      2, 0, 0, 0, 0x4F, 0x4B, 0] = .error (.invalidSize 2) ∧
    readU32AsBoundedUsize 0 packetWordMinSize packetWordMaxSize =
      .error (.invalidSize 0) ∧
    readU32AsBoundedUsize 2 packetWordMinSize packetWordMaxSize =
      .error (.invalidSize 2) ∧
    readU32AsBoundedUsize 5 packetWordMinSize packetWordMaxSize = .ok 5 ∧
    readU32AsBoundedUsize 16367 packetWordMinSize packetWordMaxSize = .ok 16367 ∧
    readU32AsBoundedUsize 16368 packetWordMinSize packetWordMaxSize =
      .error (.invalidSize 16368) := by
  decide

/-- Claim C4.  Progressive decode: for a buffer that decodes cleanly with
no residue, any split b1 ++ b2 behaves re-entrantly — when b2 is nonempty
the first call returns None leaving b1 untouched and the call on the
completed buffer returns the packet with an empty residue, and when b2 is
empty the first call already returns the packet (so exactly one call yields
the packet and nothing is left behind). -/
theorem c4_progressive_decode (b1 b2 : List Nat) (p : Packet)
    (hb : ∀ x ∈ b1 ++ b2, x < 256)
    (h : readPacket (b1 ++ b2) = .ok (some p, [])) :
    (b2 ≠ [] → readPacket b1 = .ok (none, b1)) ∧
    readPacket (b1 ++ b2) = .ok (some p, []) ∧
    (b2 = [] → readPacket b1 = .ok (some p, []) ∧
      readPacket ([] : List Nat) = .ok (none, [])) := by
  refine ⟨fun hne => readPacket_prefix_none b1 b2 p hb h hne, h, fun hnil => ⟨?_, by decide⟩⟩
  subst hnil
  simpa using h

/-- Claim C4 witness: the two-word fixture split after byte 13. -/
theorem c4_progressive_decode_witness :
    readPacket
      ([0, 0, 0, 128, 32, 0, 0, 0, 2, 0, 0, 0, 5] ++
        [0, 0, 0, 104, 101, 108, 108, 111, 0, 5, 0, 0, 0, 119, 111, 114, 108, 100, 0]) =
      .ok (some ⟨⟨2147483648⟩, [⟨[104, 101, 108, 108, 111]⟩, ⟨[119, 111, 114, 108, 100]⟩]⟩, []) ∧
    readPacket [0, 0, 0, 128, 32, 0, 0, 0, 2, 0, 0, 0, 5] =
      .ok (none, [0, 0, 0, 128, 32, 0, 0, 0, 2, 0, 0, 0, 5]) := by
  refine ⟨by decide, ?_⟩
  exact (c4_progressive_decode
    [0, 0, 0, 128, 32, 0, 0, 0, 2, 0, 0, 0, 5]
    [0, 0, 0, 104, 101, 108, 108, 111, 0, 5, 0, 0, 0, 119, 111, 114, 108, 100, 0]
    ⟨⟨2147483648⟩, [⟨[104, 101, 108, 108, 111]⟩, ⟨[119, 111, 114, 108, 100]⟩]⟩
    (by decide) (by decide)).1 (by decide)

/-- Claim C5.  Header preservation on a body-less short read: when the
buffer is exactly the 12 header bytes of a packet whose declared total size
exceeds 12, read_packet returns None leaving those 12 bytes buffered, and
the call with the body appended succeeds. -/
theorem c5_header_preserved (hd body : List Nat) (p : Packet)
    (hb : ∀ x ∈ hd ++ body, x < 256)
    (hlen : hd.length = 12)
    (hgt : 12 < readU32le (hd.drop 4))
    (h : readPacket (hd ++ body) = .ok (some p, [])) :
    readPacket hd = .ok (none, hd) ∧ readPacket (hd ++ body) = .ok (some p, []) := by
  refine ⟨readPacket_prefix_none hd body p hb h ?_, h⟩
  intro hbody
  subst hbody
  have hb2 : ∀ x ∈ hd, x < 256 := by simpa using hb
  have h2 : readPacket hd = .ok (some p, []) := by simpa using h
  obtain ⟨size, leftover, hlo, hhi, hwcle, hrawlt, hprops, hsize, hbeq⟩ :=
    readPacket_ok_some_inv hd p [] hb2 h2
  have hhdlen : hd.length = 12 + (encodeWords p.words).length + leftover.length := by
    rw [hbeq]
    simp only [List.length_append, u32leBytes_length, List.length_nil]
    have hsize2 : size = 12 + (encodeWords p.words).length + leftover.length := hsize
    omega
  have hE : (encodeWords p.words).length = 0 := by omega
  have hL : leftover.length = 0 := by omega
  have hsz12 : size = 12 := by
    have hsize2 : size = 12 + (encodeWords p.words).length + leftover.length := hsize
    omega
  have hEnil : encodeWords p.words = [] := List.eq_nil_of_length_eq_zero hE
  have hLnil : leftover = [] := List.eq_nil_of_length_eq_zero hL
  have hbeq2 : hd = u32leBytes p.seq.raw ++ u32leBytes size ++ u32leBytes p.words.length := by
    rw [hbeq, hEnil, hLnil]
    simp
  have hdrop : readU32le (hd.drop 4) = size := by
    rw [hbeq2, drop4_u32triple, readU32le_u32leBytes_append]
    exact Nat.mod_eq_of_lt (by have h1 : size ≤ 16384 := hhi; omega)
  rw [hdrop, hsz12] at hgt
  omega

/-- Claim C5 witness: the fixture header alone, then with its body. -/
theorem c5_header_preserved_witness :
    readPacket [0, 0, 0, 128, 32, 0, 0, 0, 2, 0, 0, 0] =
      .ok (none, [0, 0, 0, 128, 32, 0, 0, 0, 2, 0, 0, 0]) ∧
    readPacket
      ([0, 0, 0, 128, 32, 0, 0, 0, 2, 0, 0, 0] ++
        [5, 0, 0, 0, 104, 101, 108, 108, 111, 0, 5, 0, 0, 0, 119, 111, 114, 108, 100, 0]) =
      .ok (some ⟨⟨2147483648⟩, [⟨[104, 101, 108, 108, 111]⟩, ⟨[119, 111, 114, 108, 100]⟩]⟩, []) :=
  c5_header_preserved
    [0, 0, 0, 128, 32, 0, 0, 0, 2, 0, 0, 0]
    [5, 0, 0, 0, 104, 101, 108, 108, 111, 0, 5, 0, 0, 0, 119, 111, 114, 108, 100, 0]
    ⟨⟨2147483648⟩, [⟨[104, 101, 108, 108, 111]⟩, ⟨[119, 111, 114, 108, 100]⟩]⟩
    (by decide) (by decide) (by decide) (by decide)

set_option maxRecDepth 40000 in
/-- Claim C10.  write_packet enforces neither the 256-word limit nor the
16384-byte total size limit: it succeeds on every packet whose total size,
word count, and individual word sizes fit in a u32, only a size field above
u32 max yields InvalidSize, and consequently the 257-word packet of empty
words encodes successfully to bytes that read_packet rejects with
InvalidSize 257. -/
theorem c10_write_packet_unbounded :
    (∀ p : Packet, p.byteSize ≤ u32Max → p.words.length ≤ u32Max →
      (∀ w ∈ p.words, w.byteSize ≤ u32Max) →
      writePacket [] p = .ok (encodePacket p)) ∧
    (∀ (buf : List Nat) (size : Nat), size > u32Max →
      writeSizeU32 buf size = .error (.invalidSize size)) ∧
    writePacket [] ⟨⟨0⟩, List.replicate 257 ⟨[]⟩⟩ =
      .ok (encodePacket ⟨⟨0⟩, List.replicate 257 ⟨[]⟩⟩) ∧
    readPacket (encodePacket ⟨⟨0⟩, List.replicate 257 ⟨[]⟩⟩) =
      .error (.invalidSize 257) := by
  refine ⟨fun p h1 h2 h3 => writePacket_eq p h1 h2 h3, ?_, ?_, ?_⟩
  · intro buf size hgt
    unfold writeSizeU32
    rw [if_pos hgt]
  · exact writePacket_eq _ (by decide) (by decide) (by decide)
  · decide

set_option maxRecDepth 40000 in
/-- Claim C10 witness: the first conjunct applied to the over-limit
257-word packet. -/
theorem c10_write_packet_unbounded_witness :
    ((⟨⟨0⟩, List.replicate 257 ⟨[]⟩⟩ : Packet).byteSize ≤ u32Max ∧
      256 < (List.replicate 257 (⟨[]⟩ : PacketWord)).length) ∧
    writePacket [] ⟨⟨0⟩, List.replicate 257 ⟨[]⟩⟩ =
      .ok (encodePacket ⟨⟨0⟩, List.replicate 257 ⟨[]⟩⟩) ∧
    writeSizeU32 [] 4294967296 = .error (.invalidSize 4294967296) :=
  ⟨⟨by decide, by decide⟩,
   c10_write_packet_unbounded.1 ⟨⟨0⟩, List.replicate 257 ⟨[]⟩⟩
     (by decide) (by decide) (by decide),
   c10_write_packet_unbounded.2.1 [] 4294967296 (by decide)⟩

/-! ## Claim theorems for the connection process and socket -/

theorem handleOutgoingRequest_ok (s : ConnState) (request : List PacketWord)
    (responder : Responder) (hseq : s.nextSeq < 1073741824)
    (hsock : s.sockBroken = false) :
    ∃ seq, handleOutgoingRequest s request responder = .ok { s with
        nextSeq := s.nextSeq + 1,
        written := s.written ++ [⟨seq, request⟩],
        pendingRequests := s.pendingRequests ++ [(s.nextSeq, responder)] } ∧
      seq.number = s.nextSeq ∧ seq.kind = PacketKind.request ∧
      seq.origin = s.role := by
  obtain ⟨seq, hmk, hnum, hkind, horig⟩ := mk2_ok PacketKind.request s.role s.nextSeq hseq
  have hmod : (s.nextSeq + 1) % 4294967296 = s.nextSeq + 1 := Nat.mod_eq_of_lt (by omega)
  refine ⟨seq, ?_, hnum, hkind, horig⟩
  simp [handleOutgoingRequest, hmod, hmk, hsock]

theorem sendRequests_ok (reqs : List (List PacketWord × Responder)) :
    ∀ s : ConnState, s.sockBroken = false →
      s.nextSeq + reqs.length ≤ 1073741824 →
      ∃ s2, sendRequests s reqs = .ok s2 ∧
        s2.written.map (fun p => p.seq.number) =
          s.written.map (fun p => p.seq.number) ++ List.range' s.nextSeq reqs.length ∧
        s2.nextSeq = s.nextSeq + reqs.length ∧ s2.sockBroken = false := by
  induction reqs with
  | nil =>
    intro s hb hle
    exact ⟨s, rfl, by simp, by simp, hb⟩
  | cons hd tl ih =>
    intro s hb hle
    obtain ⟨req, r⟩ := hd
    have hlen : ((req, r) :: tl).length = tl.length + 1 := rfl
    obtain ⟨seq, hstep, hnum, hkind, horig⟩ :=
      handleOutgoingRequest_ok s req r (by rw [hlen] at hle; omega) hb
    obtain ⟨s2, hrest, hmap, hns, hsb⟩ := ih
      { s with
        nextSeq := s.nextSeq + 1,
        written := s.written ++ [⟨seq, req⟩],
        pendingRequests := s.pendingRequests ++ [(s.nextSeq, r)] }
      hb (by show s.nextSeq + 1 + tl.length ≤ 1073741824; rw [hlen] at hle; omega)
    refine ⟨s2, ?_, ?_, ?_, hsb⟩
    · show sendRequests s ((req, r) :: tl) = .ok s2
      rw [sendRequests, hstep]
      exact hrest
    · rw [hmap]
      show (s.written ++ [(⟨seq, req⟩ : Packet)]).map (fun p => p.seq.number) ++
          List.range' (s.nextSeq + 1) tl.length =
        s.written.map (fun p => p.seq.number) ++ List.range' s.nextSeq (tl.length + 1)
      rw [List.range'_succ s.nextSeq tl.length 1]
      simp [hnum]
    · rw [hns]
      show s.nextSeq + 1 + tl.length = s.nextSeq + (tl.length + 1)
      omega

/-- Claim C8.  The next-sequence counter starts at 0 and is incremented by
exactly one per outbound request; draining n requests from the initial
state writes packets whose sequence numbers are exactly 0, 1, ..., n-1
(strictly increasing) with kind Request and the local role as origin; and
a counter that has reached 2 ^ 30 makes handle_outgoing_request fail with
InvalidSequence. -/
theorem c8_sequence_counter :
    (∀ role : PacketOrigin, (initConnState role).nextSeq = 0) ∧
    (∀ (s : ConnState) (request : List PacketWord) (responder : Responder),
      s.nextSeq < 1073741824 → s.sockBroken = false →
      ∃ seq s2, handleOutgoingRequest s request responder = .ok s2 ∧
        s2.nextSeq = s.nextSeq + 1 ∧
        s2.written = s.written ++ [⟨seq, request⟩] ∧
        seq.number = s.nextSeq ∧ seq.kind = PacketKind.request ∧
        seq.origin = s.role) ∧
    (∀ (role : PacketOrigin) (reqs : List (List PacketWord × Responder)),
      reqs.length ≤ 1073741824 →
      ∃ s2, sendRequests (initConnState role) reqs = .ok s2 ∧
        s2.written.map (fun p => p.seq.number) = List.range' 0 reqs.length) ∧
    (∀ (s : ConnState) (request : List PacketWord) (responder : Responder),
      s.nextSeq = 1073741824 →
      handleOutgoingRequest s request responder = .error .invalidSequence) := by
  refine ⟨fun _ => rfl, ?_, ?_, ?_⟩
  · intro s request responder hseq hsock
    obtain ⟨seq, hstep, hnum, hkind, horig⟩ :=
      handleOutgoingRequest_ok s request responder hseq hsock
    exact ⟨seq, _, hstep, rfl, rfl, hnum, hkind, horig⟩
  · intro role reqs hlen
    obtain ⟨s2, hrun, hmap, _, _⟩ := sendRequests_ok reqs (initConnState role) rfl
      (by show 0 + reqs.length ≤ 1073741824; omega)
    refine ⟨s2, hrun, ?_⟩
    rw [hmap]
    rfl
  · intro s request responder hseq
    have hfail : PacketSequence.mk2 PacketKind.request s.role s.nextSeq =
        .error .invalidSequenceNumber := by
      apply mk2_fails_at_wrap
      left
      rw [hseq, mask30_testBit]
      simp
    simp [handleOutgoingRequest, hfail]

/-- Claim C8 witness: two requests from a fresh client connection are
written with numbers 0 then 1, and a connection whose counter has reached
2 ^ 30 rejects the next request. -/
theorem c8_sequence_counter_witness :
    (∃ s2, sendRequests (initConnState PacketOrigin.client)
        [([⟨[97]⟩], ⟨true⟩), ([⟨[98]⟩], ⟨true⟩)] = .ok s2 ∧
      s2.written.map (fun p => p.seq.number) = [0, 1]) ∧
    handleOutgoingRequest { initConnState PacketOrigin.client with
        nextSeq := 1073741824 } [⟨[97]⟩] ⟨true⟩ = .error .invalidSequence := by
  constructor
  · obtain ⟨s2, hrun, hmap⟩ := c8_sequence_counter.2.2.1 PacketOrigin.client
      [([⟨[97]⟩], ⟨true⟩), ([⟨[98]⟩], ⟨true⟩)] (by decide)
    exact ⟨s2, hrun, by rw [hmap]; rfl⟩
  · exact c8_sequence_counter.2.2.2 _ [⟨[97]⟩] ⟨true⟩ rfl

/-- Claim C6.  An inbound packet whose sequence kind is Response fails the
connection with OriginMismatch exactly when its origin bit differs from the
connection role; with matching origin an absent number in the pending table
fails with InvalidSequence, and a present number removes the entry and
delivers the response into its one-shot slot — the third conjunct holds for
every responder value, in particular one whose receiver was dropped, because
the send result is discarded. -/
theorem c6_inbound_response (s : ConnState) (p : Packet)
    (hkind : p.seq.kind = PacketKind.response) :
    (p.seq.origin ≠ s.role → handleIncomingPacket s p = .error .originMismatch) ∧
    (p.seq.origin = s.role → lookupRemove p.seq.number s.pendingRequests = none →
      handleIncomingPacket s p = .error .invalidSequence) ∧
    (∀ (responder : Responder) (remaining : List (Nat × Responder)),
      p.seq.origin = s.role →
      lookupRemove p.seq.number s.pendingRequests = some (responder, remaining) →
      handleIncomingPacket s p =
        .ok ({ s with pendingRequests := remaining }, some (responder, p.words))) := by
  have hkr : ¬ (p.seq.kind = PacketKind.request) := by
    rw [hkind]
    simp
  refine ⟨?_, ?_, ?_⟩
  · intro hne
    unfold handleIncomingPacket
    rw [if_neg hkr, if_pos hne]
  · intro heq hnone
    unfold handleIncomingPacket
    rw [if_neg hkr, if_neg (by simp [heq]), hnone]
  · intro responder remaining heq hsome
    unfold handleIncomingPacket
    rw [if_neg hkr, if_neg (by simp [heq]), hsome]

/-- Claim C6 witness: a client-role connection with an empty pending table
receiving a server response numbered 42 fails with InvalidSequence
(raw sequence 42 + response bit + client bit = 3221225514). -/
theorem c6_inbound_response_witness :
    (⟨⟨3221225514⟩, []⟩ : Packet).seq.kind = PacketKind.response ∧
    (⟨⟨3221225514⟩, []⟩ : Packet).seq.origin = (initConnState PacketOrigin.client).role ∧
    (⟨⟨3221225514⟩, []⟩ : Packet).seq.number = 42 ∧
    handleIncomingPacket (initConnState PacketOrigin.client) ⟨⟨3221225514⟩, []⟩ =
      .error .invalidSequence :=
  ⟨by decide, by decide, by decide,
   (c6_inbound_response (initConnState PacketOrigin.client) ⟨⟨3221225514⟩, []⟩
      (by decide)).2.1 (by decide) (by decide)⟩

/-- Claim C7.  An inbound packet whose sequence kind is Request is always
dispatched: the handler receives exactly the packet words tagged with the
original sequence, the call never fails, and in particular never yields
OriginMismatch — the origin bit of the packet is not inspected on this
path (the check is commented out in the source), so this holds whether the
packet origin equals the connection role or not. -/
theorem c7_inbound_request (s : ConnState) (p : Packet)
    (hkind : p.seq.kind = PacketKind.request) :
    handleIncomingPacket s p =
      .ok ({ s with pendingResponses := s.pendingResponses ++ [(p.seq, p.words)] },
        none) ∧
    handleIncomingPacket s p ≠ .error .originMismatch := by
  have h1 : handleIncomingPacket s p =
      .ok ({ s with pendingResponses := s.pendingResponses ++ [(p.seq, p.words)] },
        none) := by
    unfold handleIncomingPacket
    rw [if_pos hkind]
  refine ⟨h1, ?_⟩
  rw [h1]
  simp

/-- Claim C7 witness: a request packet carrying the client origin bit is
dispatched by a client-role connection — the same origin as the local role,
which the disabled check would have rejected. -/
theorem c7_inbound_request_witness :
    (⟨⟨2147483648⟩, [⟨[104, 105]⟩]⟩ : Packet).seq.kind = PacketKind.request ∧
    (⟨⟨2147483648⟩, [⟨[104, 105]⟩]⟩ : Packet).seq.origin =
      (initConnState PacketOrigin.client).role ∧
    handleIncomingPacket (initConnState PacketOrigin.client)
        ⟨⟨2147483648⟩, [⟨[104, 105]⟩]⟩ =
      .ok ({ initConnState PacketOrigin.client with
        pendingResponses := [(⟨2147483648⟩, [⟨[104, 105]⟩])] }, none) :=
  ⟨by decide, by decide,
   (c7_inbound_request (initConnState PacketOrigin.client)
      ⟨⟨2147483648⟩, [⟨[104, 105]⟩]⟩ (by decide)).1⟩

/-- Claim C3 counterexample.  At the initial state — whose in-flight set is
empty — both the clean-EOF socket event and the closed-channel event make
the run loop halt with Err(Socket(Closed)), not Ok(()): the claimed Ok(())
resolution does not exist in the code. -/
theorem c3_clean_eof_counterexample :
    stepRun (initConnState PacketOrigin.client) (.sockItem none) =
      .halt (.error (.socket .closed)) ∧
    stepRun (initConnState PacketOrigin.client) (.chanItem none) =
      .halt (.error (.socket .closed)) ∧
    (initConnState PacketOrigin.client).pendingResponses = [] ∧
    (Except.error (.socket .closed) : Except Error Unit) ≠ .ok () := by
  decide

/-- Claim C3 (amended).  The run loop terminates as soon as the framed
socket reports clean EOF, or as soon as the request channel closes, and in
both cases it resolves to Err(Socket(Closed)) regardless of the rest of the
state; no event ever makes it resolve to Ok(()); and a pending
ResponseFuture whose one-shot slot is dropped resolves to RequestCancelled. -/
theorem c3_termination_amended :
    (∀ s : ConnState, stepRun s (.sockItem none) = .halt (.error (.socket .closed))) ∧
    (∀ s : ConnState, stepRun s (.chanItem none) = .halt (.error (.socket .closed))) ∧
    (∀ (s : ConnState) (ev : ConnEvent), stepRun s ev ≠ .halt (.ok ())) ∧
    ResponseFuture.poll ⟨some .canceled⟩ = .error .requestCancelled := by
  refine ⟨fun s => rfl, fun s => rfl, ?_, rfl⟩
  intro s ev
  rcases ev with o | o | o
  · rcases o with _ | r
    · simp [stepRun]
    · rcases r with e | pkt
      · simp [stepRun]
      · rcases h : handleIncomingPacket s pkt with e | pr
        · simp [stepRun, h]
        · obtain ⟨s2, d⟩ := pr
          simp [stepRun, h]
  · rcases o with _ | pr
    · simp [stepRun]
    · obtain ⟨req, r⟩ := pr
      rcases h : handleOutgoingRequest s req r with e | s2
      · simp [stepRun, h]
      · simp [stepRun, h]
  · rcases o with _ | r
    · simp [stepRun]
    · rcases r with e | pr
      · simp [stepRun]
      · obtain ⟨seq, resp⟩ := pr
        rcases h : handleOutgoingResponse
            { s with pendingResponses := s.pendingResponses.eraseP (fun e => e.1 == seq) }
            seq resp with e | s2
        · simp [stepRun, h]
        · simp [stepRun, h]

/-- Claim C9.  Broken-state latch of the framed socket: yielding an error
item sets the broken flag; once broken, polling the stream reports
termination without touching the inner transport and leaves the flag set,
and every sink operation (poll_ready, start_send, poll_flush, poll_close)
fails with Broken leaving the state unchanged — so the flag never clears. -/
theorem c9_socket_broken_latch :
    (∀ (s : SocketState) (e : SocketError), s.broken = false →
      socketPollNext s (.ready (some (.error e))) =
        (⟨true⟩, .ready (some (.error e)))) ∧
    (∀ (s : SocketState) (inner : PollNext), s.broken = true →
      socketPollNext s inner = (s, .ready none)) ∧
    (∀ (s : SocketState) (inner : SinkPoll), s.broken = true →
      socketPollReady s inner = (s, .ready (.error .broken))) ∧
    (∀ (s : SocketState) (item : Packet) (inner : Packet → Except SocketError Unit),
      s.broken = true → socketStartSend s item inner = (s, .error .broken)) ∧
    (∀ (s : SocketState) (inner : SinkPoll), s.broken = true →
      socketPollFlush s inner = (s, .ready (.error .broken))) ∧
    (∀ (s : SocketState) (inner : SinkPoll), s.broken = true →
      socketPollClose s inner = (s, .ready (.error .broken))) ∧
    (∀ (s : SocketState) (inner : PollNext), s.broken = true →
      (socketPollNext s inner).1.broken = true) := by
  refine ⟨?_, ?_, ?_, ?_, ?_, ?_, ?_⟩
  · intro s e hb
    obtain ⟨b⟩ := s
    simp at hb
    subst hb
    rfl
  · intro s inner hb
    obtain ⟨b⟩ := s
    simp at hb
    subst hb
    rfl
  · intro s inner hb
    obtain ⟨b⟩ := s
    simp at hb
    subst hb
    rfl
  · intro s item inner hb
    obtain ⟨b⟩ := s
    simp at hb
    subst hb
    rfl
  · intro s inner hb
    obtain ⟨b⟩ := s
    simp at hb
    subst hb
    rfl
  · intro s inner hb
    obtain ⟨b⟩ := s
    simp at hb
    subst hb
    rfl
  · intro s inner hb
    obtain ⟨b⟩ := s
    simp at hb
    subst hb
    rfl

/-- Claim C9 witness: a fresh socket latches on a yielded codec error, and
the broken socket then reports termination on read and Broken on every sink
operation. -/
theorem c9_socket_broken_latch_witness :
    socketPollNext ⟨false⟩ (.ready (some (.error (.packet .malformed)))) =
      (⟨true⟩, .ready (some (.error (.packet .malformed)))) ∧
    socketPollNext ⟨true⟩ (.ready (some (.ok ⟨⟨0⟩, []⟩))) = (⟨true⟩, .ready none) ∧
    socketPollReady ⟨true⟩ (.ready (.ok ())) = (⟨true⟩, .ready (.error .broken)) ∧
    socketStartSend ⟨true⟩ ⟨⟨0⟩, []⟩ (fun _ => .ok ()) = (⟨true⟩, .error .broken) ∧
    socketPollFlush ⟨true⟩ (.ready (.ok ())) = (⟨true⟩, .ready (.error .broken)) ∧
    socketPollClose ⟨true⟩ (.ready (.ok ())) = (⟨true⟩, .ready (.error .broken)) :=
  ⟨c9_socket_broken_latch.1 ⟨false⟩ (.packet .malformed) rfl,
   c9_socket_broken_latch.2.1 ⟨true⟩ (.ready (some (.ok ⟨⟨0⟩, []⟩))) rfl,
   c9_socket_broken_latch.2.2.1 ⟨true⟩ (.ready (.ok ())) rfl,
   c9_socket_broken_latch.2.2.2.1 ⟨true⟩ ⟨⟨0⟩, []⟩ (fun _ => .ok ()) rfl,
   c9_socket_broken_latch.2.2.2.2.1 ⟨true⟩ (.ready (.ok ())) rfl,
   c9_socket_broken_latch.2.2.2.2.2.1 ⟨true⟩ (.ready (.ok ())) rfl⟩
